import Mathlib

/-!
Shallow embedding of the ngx-http-stub-server core:
a programmable stub HTTP backend consisting of a handler registry keyed by
HTTP method and exact URL, a response builder, and a stateful backend with
current/initial snapshots of state and handlers.

Sources embedded:
- projects/ngx-http-stub-server/src/lib/handler.ts
  (HttpMethod, ApiHandler, responseBuilder)
- projects/ngx-http-stub-server/src/lib/ngx-http-stub-server.ts
  (HttpClientStubBackend, ApiHandlers)

Conventions of the embedding:
- TypeScript in-place mutation of the test state is modelled by explicit
  state passing: a handler function receives the state and returns the
  response together with the possibly mutated state.
- The npm clone deep copy is the identity on immutable Lean values.
- JavaScript findIndex returning -1 is modelled as Option Nat.
- Throwing an Error in handle is modelled with Except; the observable
  delivery (next + complete versus error) is the HandleOutcome sum.
-/

/-- The closed set of HTTP methods (handler.ts, type HttpMethod). -/
inductive HttpMethod where
  | HEAD
  | GET
  | POST
  | PUT
  | DELETE
  | PATCH
  | OPTIONS
deriving DecidableEq

/-- The string key under which a method is stored in the handlersByMethod
record, and the string form carried by a request. -/
def HttpMethod.toKey : HttpMethod → String
  | .HEAD => "HEAD"
  | .GET => "GET"
  | .POST => "POST"
  | .PUT => "PUT"
  | .DELETE => "DELETE"
  | .PATCH => "PATCH"
  | .OPTIONS => "OPTIONS"

/-- Which of the seven own keys of the handlersByMethod record a string is,
if any. This covers own-property hits only; the inherited Object.prototype
members that JavaScript bracket lookup also reaches are modelled separately
by ApiHandlers.memberLookup. -/
def keyToMethod (s : String) : Option HttpMethod :=
  if s = "HEAD" then some HttpMethod.HEAD
  else if s = "GET" then some HttpMethod.GET
  else if s = "POST" then some HttpMethod.POST
  else if s = "PUT" then some HttpMethod.PUT
  else if s = "DELETE" then some HttpMethod.DELETE
  else if s = "PATCH" then some HttpMethod.PATCH
  else if s = "OPTIONS" then some HttpMethod.OPTIONS
  else none

/-- handler.ts, class ApiHandler: an immutable (method, url, action) triple.
The action payload is kept abstract (α); the backend instantiates it with
the handler function type. -/
structure ApiHandler (α : Type) where
  method : HttpMethod
  url : String
  handle : α
deriving DecidableEq

/-- The npm clone deep copy. On immutable values (as in this pure embedding)
a deep copy is the identity; functions are copied by reference by clone,
which is also the identity here. -/
def clone (x : α) : α := x

/-- JavaScript Array.prototype.findIndex with a running index accumulator
(-1 is modelled as none). -/
def findIndexFrom (p : α → Bool) : List α → Nat → Option Nat
  | [], _ => none
  | x :: xs, i => if p x then some i else findIndexFrom p xs (i + 1)

/-- JavaScript Array.prototype.findIndex (-1 is modelled as none). -/
def findIndex (p : α → Bool) (xs : List α) : Option Nat :=
  findIndexFrom p xs 0

/-- ngx-http-stub-server.ts, the handlersByMethod record of class
ApiHandlers: one ordered list of handlers per method. -/
structure ApiHandlers (α : Type) where
  HEAD : List (ApiHandler α)
  GET : List (ApiHandler α)
  POST : List (ApiHandler α)
  PUT : List (ApiHandler α)
  DELETE : List (ApiHandler α)
  PATCH : List (ApiHandler α)
  OPTIONS : List (ApiHandler α)
deriving DecidableEq

/-- The freshly constructed handlersByMethod record: every list empty. -/
def emptyHandlers : ApiHandlers α :=
  { HEAD := [], GET := [], POST := [], PUT := [], DELETE := [], PATCH := [], OPTIONS := [] }

/-- Reading the per-method list out of the handlersByMethod record. -/
def ApiHandlers.get (a : ApiHandlers α) : HttpMethod → List (ApiHandler α)
  | .HEAD => a.HEAD
  | .GET => a.GET
  | .POST => a.POST
  | .PUT => a.PUT
  | .DELETE => a.DELETE
  | .PATCH => a.PATCH
  | .OPTIONS => a.OPTIONS

/-- Writing the per-method list of the handlersByMethod record. -/
def ApiHandlers.setList (a : ApiHandlers α) : HttpMethod → List (ApiHandler α) → ApiHandlers α
  | .HEAD, l => { a with HEAD := l }
  | .GET, l => { a with GET := l }
  | .POST, l => { a with POST := l }
  | .PUT, l => { a with PUT := l }
  | .DELETE, l => { a with DELETE := l }
  | .PATCH, l => { a with PATCH := l }
  | .OPTIONS, l => { a with OPTIONS := l }

/-- The body of ApiHandlers.put acting on the selected per-method list:
findIndex on equal url; replace at that index if found, else push. -/
def putList (handler : ApiHandler α) (handlers : List (ApiHandler α)) : List (ApiHandler α) :=
  match findIndex (fun h => h.url == handler.url) handlers with
  | none => handlers ++ [handler]
  | some i => handlers.set i handler

/-- ngx-http-stub-server.ts, ApiHandlers.put. The handler's method is typed
by the closed HttpMethod set, so the record lookup always succeeds and the
invalid-method throw is unreachable for well-typed handlers. -/
def ApiHandlers.put (a : ApiHandlers α) (handler : ApiHandler α) : ApiHandlers α :=
  ApiHandlers.setList a handler.method (putList handler (ApiHandlers.get a handler.method))

/-- ngx-http-stub-server.ts, the ApiHandlers constructor: start from the
empty record and put each given handler in input order. -/
def ApiHandlers.ofList (handlers : List (ApiHandler α)) : ApiHandlers α :=
  handlers.foldl ApiHandlers.put emptyHandlers

/-- ngx-http-stub-server.ts, ApiHandlers.match, on the domain of method
strings whose record lookup yields an own key or undefined — in particular
on every real request method, since the Angular request constructor
upper-cases methods, which never collide with the lowercase-initial
Object.prototype member names. The faithful model on the full string
domain, where an inherited Object.prototype member makes match throw a
TypeError instead, is ApiHandlers.matchJS below; the two models agree on
all successful lookups (matchJS_found_iff). -/
def ApiHandlers.matchHandler (a : ApiHandlers α) (method url : String) : Option (ApiHandler α) :=
  match keyToMethod method with
  | none => none
  | some m => (ApiHandlers.get a m).find? (fun h => h.url == url)

/-- The string-keyed property names every plain object literal inherits from
Object.prototype (ES2023, Annex B accessors included): bracket lookup of any
of these on the handlersByMethod record is defined — a function or an
object, not a handler array. -/
def protoProps : List String :=
  ["constructor", "hasOwnProperty", "isPrototypeOf", "propertyIsEnumerable",
   "toLocaleString", "toString", "valueOf", "__proto__",
   "__defineGetter__", "__defineSetter__", "__lookupGetter__", "__lookupSetter__"]

/-- The possible results of the JavaScript member lookup
handlersByMethod[method] for an arbitrary string: one of the seven own keys
(a handler array), an inherited Object.prototype member (defined but not an
array), or undefined. -/
inductive MemberHit (α : Type) where
  | arr (l : List (ApiHandler α))
  | inherited
  | undef
deriving DecidableEq

/-- Faithful model of the record lookup handlersByMethod[method]: own keys
first, then the prototype chain, else undefined. -/
def ApiHandlers.memberLookup (a : ApiHandlers α) (s : String) : MemberHit α :=
  match keyToMethod s with
  | some m => MemberHit.arr (ApiHandlers.get a m)
  | none => if s ∈ protoProps then MemberHit.inherited else MemberHit.undef

/-- What ApiHandlers.match can do on an arbitrary method string: return a
handler, return undefined (not found), or throw a TypeError. -/
inductive MatchResult (α : Type) where
  | found (h : ApiHandler α)
  | notFound
  | typeError
deriving DecidableEq

/-- ngx-http-stub-server.ts, ApiHandlers.match, on the full string domain of
the JavaScript member lookup: an undefined lookup returns undefined (not
found); an inherited Object.prototype member is not undefined, so the guard
does not fire and the call handlers.find throws a TypeError (find is not a
function on it); an own key proceeds to find by exact url equality. -/
def ApiHandlers.matchJS (a : ApiHandlers α) (method url : String) : MatchResult α :=
  match ApiHandlers.memberLookup a method with
  | MemberHit.undef => MatchResult.notFound
  | MemberHit.inherited => MatchResult.typeError
  | MemberHit.arr l =>
      match l.find? (fun h => h.url == url) with
      | some h => MatchResult.found h
      | none => MatchResult.notFound

/-- The Angular HttpResponse as observed by this library: a body and a
numeric status. -/
structure HttpResponse (β : Type) where
  body : β
  status : Int
deriving DecidableEq

/-- The Angular HttpErrorResponse as observed by this library: an error
payload and a numeric status. -/
structure HttpErrorResponse where
  error : String
  status : Int
deriving DecidableEq

/-- The value a handler hands back to the dispatcher. The instanceof checks
of handle distinguish an HttpResponse, an HttpErrorResponse, and any value
that is neither (possible in JavaScript despite the declared union type). -/
inductive StubResponse (β : Type) where
  | response (r : HttpResponse β)
  | errorResponse (e : HttpErrorResponse)
  | invalid
deriving DecidableEq

/-- The request descriptor as consumed by the backend: method string, url
and an optional body. -/
structure HttpRequest (β : Type) where
  method : String
  url : String
  body : Option β
deriving DecidableEq

/-- The parameter record of responseBuilder.ok. -/
structure OkParams (β : Type) where
  body : β
  status : Int
deriving DecidableEq

/-- The parameter record of responseBuilder.error. -/
structure ErrorParams where
  body : String
  status : Int
deriving DecidableEq

/-- The shape of the outcome builder record passed to every handler. -/
structure ResponseBuilder (β : Type) where
  ok : OkParams β → HttpResponse β
  error : ErrorParams → HttpErrorResponse

/-- handler.ts, responseBuilder: ok wraps the body/status pair in an
HttpResponse, error wraps it in an HttpErrorResponse; both pass the given
status through unchanged. -/
def responseBuilder : ResponseBuilder β where
  ok := fun params => { body := params.body, status := params.status }
  error := fun params => { error := params.body, status := params.status }

/-- handler.ts, the handler function type: (request, builder, state) to a
response; the in-place mutation of state is modelled by also returning the
new state. -/
abbrev HandlerFn (σ β : Type) :=
  HttpRequest β → ResponseBuilder β → σ → StubResponse β × σ

/-- ngx-http-stub-server.ts, class HttpClientStubBackend: the current
registry and state plus the initial snapshots taken at setup time. -/
structure HttpClientStubBackend (σ β : Type) where
  apiHandlers : ApiHandlers (HandlerFn σ β)
  state : σ
  initialState : σ
  initialHandlers : ApiHandlers (HandlerFn σ β)

/-- HttpClientStubBackend setup (the method named after initialization in
the source): deep-copy the state into current and initial holders, build
the registry from a copy of the handlers and snapshot it. -/
def HttpClientStubBackend.init (newState : σ) (handlers : List (ApiHandler (HandlerFn σ β))) :
    HttpClientStubBackend σ β :=
  let apiHandlers := ApiHandlers.ofList (clone handlers)
  { state := clone newState
    initialState := clone newState
    apiHandlers := apiHandlers
    initialHandlers := clone apiHandlers }

/-- HttpClientStubBackend.putHandlers: put each given handler into the
current registry, in order. -/
def HttpClientStubBackend.putHandlers (b : HttpClientStubBackend σ β)
    (handlers : List (ApiHandler (HandlerFn σ β))) : HttpClientStubBackend σ β :=
  { b with apiHandlers := handlers.foldl ApiHandlers.put b.apiHandlers }

/-- HttpClientStubBackend.resetHandlers: current registry becomes a deep
copy of the initial-handlers snapshot. -/
def HttpClientStubBackend.resetHandlers (b : HttpClientStubBackend σ β) :
    HttpClientStubBackend σ β :=
  { b with apiHandlers := clone b.initialHandlers }

/-- HttpClientStubBackend.resetState: current state becomes a deep copy of
the initial-state snapshot. -/
def HttpClientStubBackend.resetState (b : HttpClientStubBackend σ β) :
    HttpClientStubBackend σ β :=
  { b with state := clone b.initialState }

/-- The errors handle can throw: no matching handler, the two outcome
contract violations, and the neither-variant case. -/
inductive HandleError where
  | noHandlerFound
  | notErrorButStatusNotOk
  | errorButStatusOk
  | invalidResponse
deriving DecidableEq

/-- What the observable delivers on a valid outcome: next plus complete on
the success channel, or the error channel. -/
inductive HandleOutcome (β : Type) where
  | success (r : HttpResponse β)
  | failure (e : HttpErrorResponse)
deriving DecidableEq

/-- ngx-http-stub-server.ts, HttpClientStubBackend.handle: match the
request, throw when no handler is found, otherwise run the handler on the
current state and validate the outcome (statusOk is the predicate
200 <= status < 300 on the returned response's status, evaluated exactly as
in the source on the branch where it is consulted). The second component is
the backend after the handler's state mutation. -/
def HttpClientStubBackend.handle (b : HttpClientStubBackend σ β) (req : HttpRequest β) :
    Except HandleError (HandleOutcome β) × HttpClientStubBackend σ β :=
  match ApiHandlers.matchHandler b.apiHandlers req.method req.url with
  | none => (Except.error HandleError.noHandlerFound, b)
  | some handler =>
    let out := ApiHandler.handle handler req responseBuilder b.state
    let b' : HttpClientStubBackend σ β := { b with state := out.2 }
    match out.1 with
    | StubResponse.response r =>
        if 200 ≤ r.status ∧ r.status < 300 then
          (Except.ok (HandleOutcome.success r), b')
        else
          (Except.error HandleError.notErrorButStatusNotOk, b')
    | StubResponse.errorResponse e =>
        if 200 ≤ e.status ∧ e.status < 300 then
          (Except.error HandleError.errorButStatusOk, b')
        else
          (Except.ok (HandleOutcome.failure e), b')
    | StubResponse.invalid => (Except.error HandleError.invalidResponse, b')

/-- One controller-or-transport operation on a backend, used to quantify
over arbitrary interaction sequences. -/
inductive StubOp (σ β : Type) where
  | opHandle (req : HttpRequest β)
  | opPutHandlers (handlers : List (ApiHandler (HandlerFn σ β)))
  | opResetHandlers
  | opResetState

/-- Running one operation against the backend. -/
def applyOp (b : HttpClientStubBackend σ β) : StubOp σ β → HttpClientStubBackend σ β
  | StubOp.opHandle req => (HttpClientStubBackend.handle b req).2
  | StubOp.opPutHandlers hs => HttpClientStubBackend.putHandlers b hs
  | StubOp.opResetHandlers => HttpClientStubBackend.resetHandlers b
  | StubOp.opResetState => HttpClientStubBackend.resetState b

/-- Running a sequence of operations against the backend, left to right. -/
def applyOps (b : HttpClientStubBackend σ β) (ops : List (StubOp σ β)) :
    HttpClientStubBackend σ β :=
  ops.foldl applyOp b

/-- Running a sequence of putHandlers calls, left to right. -/
def applyPuts (seq : List (List (ApiHandler (HandlerFn σ β))))
    (b : HttpClientStubBackend σ β) : HttpClientStubBackend σ β :=
  seq.foldl HttpClientStubBackend.putHandlers b

/-- The per-method url lists of the registry are duplicate free: at most one
handler per (method, url) key. -/
def ApiHandlers.UrlsUnique (a : ApiHandlers α) : Prop :=
  ∀ m : HttpMethod, ((ApiHandlers.get a m).map ApiHandler.url).Nodup

/-- Every handler stored under a method key carries that method. -/
def ApiHandlers.MethodsAligned (a : ApiHandlers α) : Prop :=
  ∀ m : HttpMethod, ∀ h ∈ ApiHandlers.get a m, h.method = m

/-- The registry states reachable through the constructor and put (and hence
putHandlers, which iterates put). -/
inductive ApiHandlers.Reachable : ApiHandlers α → Prop where
  | ofListR (handlers : List (ApiHandler α)) : ApiHandlers.Reachable (ApiHandlers.ofList handlers)
  | putR {a : ApiHandlers α} (h : ApiHandler α) :
      ApiHandlers.Reachable a → ApiHandlers.Reachable (ApiHandlers.put a h)

/-- Recursive reformulation of putList used by the proofs: replace the first
handler with an equal url, else append at the end. -/
def putRec (handler : ApiHandler α) : List (ApiHandler α) → List (ApiHandler α)
  | [] => [handler]
  | h :: rest =>
      if h.url = handler.url then handler :: rest else h :: putRec handler rest

/-! ## Concrete fixtures used to evaluate the definitions -/

/-- A handler function that always answers 200 with a unit body. -/
def fnOk200 : HandlerFn Unit Unit :=
  fun _req _res s => (StubResponse.response { body := (), status := 200 }, s)

/-- A concrete GET handler for the url /users. -/
def handlerOk : ApiHandler (HandlerFn Unit Unit) :=
  { method := HttpMethod.GET, url := "/users", handle := fnOk200 }

/-- A backend set up with the single concrete handler. -/
def backendOk : HttpClientStubBackend Unit Unit :=
  HttpClientStubBackend.init () [handlerOk]

/-- A backend set up with no handlers. -/
def backendEmpty : HttpClientStubBackend Unit Unit :=
  HttpClientStubBackend.init () []

/-- A concrete GET request for the url /users. -/
def reqUsers : HttpRequest Unit :=
  { method := "GET", url := "/users", body := none }

/-- Three concrete handlers with pairwise distinct (method, url) keys and a
numeric action payload. -/
def handlersC3 : List (ApiHandler Nat) :=
  [{ method := HttpMethod.GET, url := "/users", handle := 0 },
   { method := HttpMethod.POST, url := "/users", handle := 1 },
   { method := HttpMethod.GET, url := "/projects", handle := 2 }]

/-- A concrete GET handler, numeric payload 10. -/
def hC4a : ApiHandler Nat := { method := HttpMethod.GET, url := "/users", handle := 10 }

/-- A concrete GET handler under the same key, numeric payload 20. -/
def hC4b : ApiHandler Nat := { method := HttpMethod.GET, url := "/users", handle := 20 }

/-- A concrete GET handler, numeric payload 5. -/
def hC10 : ApiHandler Nat := { method := HttpMethod.GET, url := "/users", handle := 5 }

/-! ## Lemmas about the record of per-method lists -/

theorem ApiHandlers.get_setList_self (a : ApiHandlers α) (m : HttpMethod)
    (l : List (ApiHandler α)) :
    ApiHandlers.get (ApiHandlers.setList a m l) m = l := by
  cases m <;> rfl

theorem ApiHandlers.get_setList_ne (a : ApiHandlers α) {m m' : HttpMethod}
    (l : List (ApiHandler α)) (hne : m' ≠ m) :
    ApiHandlers.get (ApiHandlers.setList a m l) m' = ApiHandlers.get a m' := by
  cases m <;> cases m' <;> first | rfl | exact absurd rfl hne

theorem keyToMethod_toKey (m : HttpMethod) : keyToMethod (HttpMethod.toKey m) = some m := by
  cases m <;> rfl

/-! ## findIndex, putList, putRec -/

theorem findIndexFrom_add_one (p : α → Bool) (xs : List α) :
    ∀ i, findIndexFrom p xs (i + 1) = (findIndexFrom p xs i).map (· + 1) := by
  induction xs with
  | nil => intro i; rfl
  | cons x xs ih =>
      intro i
      by_cases hx : p x
      · simp [findIndexFrom, hx]
      · simp [findIndexFrom, hx, ih]

theorem putList_cons (handler x : ApiHandler α) (xs : List (ApiHandler α)) :
    putList handler (x :: xs) =
      if x.url = handler.url then handler :: xs else x :: putList handler xs := by
  by_cases hx : x.url = handler.url
  · rw [if_pos hx]
    have hpx : (x.url == handler.url) = true := beq_iff_eq.mpr hx
    simp [putList, findIndex, findIndexFrom, hpx]
  · rw [if_neg hx]
    have hpx : (x.url == handler.url) = false := by simp [hx]
    have h1 : findIndexFrom (fun h => h.url == handler.url) xs 1 =
        (findIndexFrom (fun h => h.url == handler.url) xs 0).map (· + 1) :=
      findIndexFrom_add_one _ xs 0
    simp only [putList, findIndex, findIndexFrom, hpx, Bool.false_eq_true, if_false, h1]
    cases hfi : findIndexFrom (fun h => h.url == handler.url) xs 0 with
    | none => simp
    | some i => simp

theorem putList_eq_putRec (handler : ApiHandler α) (hs : List (ApiHandler α)) :
    putList handler hs = putRec handler hs := by
  induction hs with
  | nil => rfl
  | cons x xs ih =>
      rw [putList_cons]
      by_cases hx : x.url = handler.url
      · simp [putRec, hx]
      · simp [putRec, hx, ih]

theorem find?_putRec_self (handler : ApiHandler α) (hs : List (ApiHandler α)) :
    (putRec handler hs).find? (fun h => h.url == handler.url) = some handler := by
  induction hs with
  | nil =>
      simp [putRec, List.find?]
  | cons x xs ih =>
      by_cases hx : x.url = handler.url
      · simp [putRec, hx, List.find?]
      · have hpx : (x.url == handler.url) = false := beq_eq_false_iff_ne.mpr hx
        simp only [putRec, hx, if_false]
        simp [List.find?, hpx, ih]

theorem find?_putRec_ne (handler : ApiHandler α) (u : String) (hu : u ≠ handler.url) :
    ∀ hs : List (ApiHandler α),
      (putRec handler hs).find? (fun h => h.url == u) = hs.find? (fun h => h.url == u) := by
  intro hs
  have hph : (handler.url == u) = false := beq_eq_false_iff_ne.mpr (Ne.symm hu)
  induction hs with
  | nil =>
      simp [putRec, List.find?, hph]
  | cons x xs ih =>
      by_cases hx : x.url = handler.url
      · have hpx : (x.url == u) = false := beq_eq_false_iff_ne.mpr (by rw [hx]; exact Ne.symm hu)
        simp only [putRec, hx, if_true]
        simp [List.find?, hph, hpx]
      · simp only [putRec, hx, if_false]
        cases hpx : (x.url == u) with
        | true => simp [List.find?, hpx]
        | false => simp [List.find?, hpx, ih]

theorem mem_putRec (x handler : ApiHandler α) :
    ∀ hs : List (ApiHandler α), x ∈ putRec handler hs → x = handler ∨ x ∈ hs := by
  intro hs
  induction hs with
  | nil =>
      intro hx
      simp [putRec] at hx
      exact Or.inl hx
  | cons y ys ih =>
      intro hx
      by_cases hy : y.url = handler.url
      · simp only [putRec, hy, if_true] at hx
        rcases List.mem_cons.mp hx with h | h
        · exact Or.inl h
        · exact Or.inr (List.mem_cons_of_mem _ h)
      · simp only [putRec, hy, if_false] at hx
        rcases List.mem_cons.mp hx with h | h
        · exact Or.inr (by simp [h])
        · rcases ih h with h1 | h1
          · exact Or.inl h1
          · exact Or.inr (List.mem_cons_of_mem _ h1)

theorem url_mem_putRec (handler : ApiHandler α) (hs : List (ApiHandler α)) (u : String)
    (hu : u ∈ (putRec handler hs).map ApiHandler.url) :
    u = handler.url ∨ u ∈ hs.map ApiHandler.url := by
  rw [List.mem_map] at hu
  obtain ⟨x, hx, rfl⟩ := hu
  rcases mem_putRec x handler hs hx with rfl | h
  · exact Or.inl rfl
  · exact Or.inr (List.mem_map.mpr ⟨x, h, rfl⟩)

theorem nodup_urls_putRec (handler : ApiHandler α) :
    ∀ hs : List (ApiHandler α), (hs.map ApiHandler.url).Nodup →
      ((putRec handler hs).map ApiHandler.url).Nodup := by
  intro hs
  induction hs with
  | nil => intro _; simp [putRec]
  | cons x xs ih =>
      intro hnd
      rw [List.map_cons, List.nodup_cons] at hnd
      obtain ⟨hxnot, hnodup⟩ := hnd
      by_cases hx : x.url = handler.url
      · simp only [putRec, hx, if_true, List.map_cons, List.nodup_cons]
        exact ⟨hx ▸ hxnot, hnodup⟩
      · simp only [putRec, hx, if_false, List.map_cons, List.nodup_cons]
        constructor
        · intro hmem
          rcases url_mem_putRec handler xs x.url hmem with h | h
          · exact hx h
          · exact hxnot h
        · exact ih hnodup

theorem filter_urls_nil (u : String) :
    ∀ hs : List (ApiHandler α), u ∉ hs.map ApiHandler.url →
      hs.filter (fun h => h.url == u) = [] := by
  intro hs
  induction hs with
  | nil => intro _; rfl
  | cons x xs ih =>
      intro hu
      rw [List.map_cons] at hu
      have h1 : ¬(u = x.url) := fun h => hu (by simp [h])
      have h2 : u ∉ xs.map ApiHandler.url := fun h => hu (List.mem_cons_of_mem _ h)
      have hpx : (x.url == u) = false := by
        simp
        exact fun h => h1 h.symm
      rw [List.filter_cons]
      simp [hpx, ih h2]

theorem filter_putRec_self (handler : ApiHandler α) :
    ∀ hs : List (ApiHandler α), (hs.map ApiHandler.url).Nodup →
      (putRec handler hs).filter (fun h => h.url == handler.url) = [handler] := by
  intro hs
  induction hs with
  | nil =>
      intro _
      simp [putRec]
  | cons x xs ih =>
      intro hnd
      rw [List.map_cons, List.nodup_cons] at hnd
      obtain ⟨hxnot, hnodup⟩ := hnd
      by_cases hx : x.url = handler.url
      · have hnot : handler.url ∉ xs.map ApiHandler.url := hx ▸ hxnot
        simp [putRec, hx, List.filter_cons, filter_urls_nil handler.url xs hnot]
      · have hpx : (x.url == handler.url) = false := by simp [hx]
        simp [putRec, hx, List.filter_cons, hpx, ih hnodup]

/-! ## Registry-level lemmas -/

theorem ApiHandlers.get_put_self (a : ApiHandlers α) (h : ApiHandler α) :
    ApiHandlers.get (ApiHandlers.put a h) h.method = putRec h (ApiHandlers.get a h.method) := by
  unfold ApiHandlers.put
  rw [ApiHandlers.get_setList_self, putList_eq_putRec]

theorem ApiHandlers.get_put_ne (a : ApiHandlers α) (h : ApiHandler α) {m : HttpMethod}
    (hne : m ≠ h.method) :
    ApiHandlers.get (ApiHandlers.put a h) m = ApiHandlers.get a m := by
  unfold ApiHandlers.put
  exact ApiHandlers.get_setList_ne a _ hne

theorem matchHandler_put_self (a : ApiHandlers α) (h : ApiHandler α) :
    ApiHandlers.matchHandler (ApiHandlers.put a h) (HttpMethod.toKey h.method) h.url = some h := by
  simp [ApiHandlers.matchHandler, keyToMethod_toKey, ApiHandlers.get_put_self,
    find?_putRec_self]

theorem matchHandler_put_ne (a : ApiHandlers α) (h : ApiHandler α) (m : HttpMethod) (u : String)
    (hk : (m, u) ≠ (h.method, h.url)) :
    ApiHandlers.matchHandler (ApiHandlers.put a h) (HttpMethod.toKey m) u =
      ApiHandlers.matchHandler a (HttpMethod.toKey m) u := by
  by_cases hm : m = h.method
  · subst hm
    have hu : u ≠ h.url := by
      intro h'
      exact hk (by rw [h'])
    simp [ApiHandlers.matchHandler, keyToMethod_toKey, ApiHandlers.get_put_self,
      find?_putRec_ne h u hu]
  · simp [ApiHandlers.matchHandler, keyToMethod_toKey, ApiHandlers.get_put_ne a h hm]

theorem matchHandler_foldl_put_ne (m : HttpMethod) (u : String) :
    ∀ (rest : List (ApiHandler α)) (a : ApiHandlers α),
      (∀ g ∈ rest, (g.method, g.url) ≠ (m, u)) →
      ApiHandlers.matchHandler (rest.foldl ApiHandlers.put a) (HttpMethod.toKey m) u =
        ApiHandlers.matchHandler a (HttpMethod.toKey m) u := by
  intro rest
  induction rest with
  | nil => intro a _; rfl
  | cons g gs ih =>
      intro a hall
      rw [List.foldl_cons]
      rw [ih (ApiHandlers.put a g) (fun x hx => hall x (List.mem_cons_of_mem _ hx))]
      exact matchHandler_put_ne a g m u (Ne.symm (hall g (List.mem_cons_self _ _)))

theorem matchHandler_foldl_mem (t : ApiHandler α) :
    ∀ (H : List (ApiHandler α)) (a : ApiHandlers α),
      H.Pairwise (fun g h => (g.method, g.url) ≠ (h.method, h.url)) →
      t ∈ H →
      ApiHandlers.matchHandler (H.foldl ApiHandlers.put a)
        (HttpMethod.toKey t.method) t.url = some t := by
  intro H
  induction H with
  | nil =>
      intro a _ ht
      simp at ht
  | cons g gs ih =>
      intro a hp ht
      rw [List.pairwise_cons] at hp
      obtain ⟨hhead, htail⟩ := hp
      rw [List.foldl_cons]
      rcases List.mem_cons.mp ht with rfl | htg
      · rw [matchHandler_foldl_put_ne t.method t.url gs (ApiHandlers.put a t)
          (fun x hx => Ne.symm (hhead x hx))]
        exact matchHandler_put_self a t
      · exact ih (ApiHandlers.put a g) htail htg

theorem matchHandler_url (a : ApiHandlers α) (ms u : String) (h : ApiHandler α)
    (hm : ApiHandlers.matchHandler a ms u = some h) : h.url = u := by
  unfold ApiHandlers.matchHandler at hm
  cases hk : keyToMethod ms with
  | none =>
      rw [hk] at hm
      simp at hm
  | some m =>
      rw [hk] at hm
      simp only [] at hm
      have hp := List.find?_some hm
      simpa using hp

theorem matchHandler_mem (a : ApiHandlers α) (ms u : String) (h : ApiHandler α)
    (hm : ApiHandlers.matchHandler a ms u = some h) :
    ∃ m, keyToMethod ms = some m ∧ h ∈ ApiHandlers.get a m := by
  unfold ApiHandlers.matchHandler at hm
  cases hk : keyToMethod ms with
  | none =>
      rw [hk] at hm
      simp at hm
  | some m =>
      rw [hk] at hm
      simp only [] at hm
      exact ⟨m, rfl, List.mem_of_find?_eq_some hm⟩

theorem keyToMethod_eq_none (ms : String)
    (hms : ms ∉ (["HEAD", "GET", "POST", "PUT", "DELETE", "PATCH", "OPTIONS"] : List String)) :
    keyToMethod ms = none := by
  simp only [List.mem_cons, List.not_mem_nil, or_false, not_or] at hms
  obtain ⟨h1, h2, h3, h4, h5, h6, h7⟩ := hms
  simp [keyToMethod, h1, h2, h3, h4, h5, h6, h7]

theorem matchJS_found_iff (a : ApiHandlers α) (ms u : String) (h : ApiHandler α) :
    ApiHandlers.matchJS a ms u = MatchResult.found h ↔
      ApiHandlers.matchHandler a ms u = some h := by
  cases hk : keyToMethod ms with
  | none =>
      by_cases hp : ms ∈ protoProps
      · simp [ApiHandlers.matchJS, ApiHandlers.memberLookup, ApiHandlers.matchHandler, hk, hp]
      · simp [ApiHandlers.matchJS, ApiHandlers.memberLookup, ApiHandlers.matchHandler, hk, hp]
  | some m =>
      cases hf : (ApiHandlers.get a m).find? (fun x => x.url == u) with
      | none =>
          simp [ApiHandlers.matchJS, ApiHandlers.memberLookup, ApiHandlers.matchHandler, hk, hf]
      | some x =>
          simp [ApiHandlers.matchJS, ApiHandlers.memberLookup, ApiHandlers.matchHandler, hk, hf]

/-! ## Registry invariants -/

theorem urlsUnique_empty : ApiHandlers.UrlsUnique (emptyHandlers : ApiHandlers α) := by
  intro m
  cases m <;> simp [emptyHandlers, ApiHandlers.get]

theorem urlsUnique_put (a : ApiHandlers α) (h : ApiHandler α)
    (ha : ApiHandlers.UrlsUnique a) : ApiHandlers.UrlsUnique (ApiHandlers.put a h) := by
  intro m
  by_cases hm : m = h.method
  · subst hm
    rw [ApiHandlers.get_put_self]
    exact nodup_urls_putRec h _ (ha h.method)
  · rw [ApiHandlers.get_put_ne a h hm]
    exact ha m

theorem urlsUnique_foldl (H : List (ApiHandler α)) :
    ∀ a : ApiHandlers α, ApiHandlers.UrlsUnique a →
      ApiHandlers.UrlsUnique (H.foldl ApiHandlers.put a) := by
  induction H with
  | nil => intro a ha; exact ha
  | cons g gs ih =>
      intro a ha
      rw [List.foldl_cons]
      exact ih _ (urlsUnique_put a g ha)

theorem urlsUnique_ofList (H : List (ApiHandler α)) :
    ApiHandlers.UrlsUnique (ApiHandlers.ofList H) :=
  urlsUnique_foldl H emptyHandlers urlsUnique_empty

theorem methodsAligned_empty : ApiHandlers.MethodsAligned (emptyHandlers : ApiHandlers α) := by
  intro m h hm
  cases m <;> simp [emptyHandlers, ApiHandlers.get] at hm

theorem methodsAligned_put (a : ApiHandlers α) (h : ApiHandler α)
    (ha : ApiHandlers.MethodsAligned a) :
    ApiHandlers.MethodsAligned (ApiHandlers.put a h) := by
  intro m x hx
  by_cases hm : m = h.method
  · subst hm
    rw [ApiHandlers.get_put_self] at hx
    rcases mem_putRec x h _ hx with rfl | hmem
    · rfl
    · exact ha h.method x hmem
  · rw [ApiHandlers.get_put_ne a h hm] at hx
    exact ha m x hx

theorem methodsAligned_foldl (H : List (ApiHandler α)) :
    ∀ a : ApiHandlers α, ApiHandlers.MethodsAligned a →
      ApiHandlers.MethodsAligned (H.foldl ApiHandlers.put a) := by
  induction H with
  | nil => intro a ha; exact ha
  | cons g gs ih =>
      intro a ha
      rw [List.foldl_cons]
      exact ih _ (methodsAligned_put a g ha)

theorem methodsAligned_reachable {a : ApiHandlers α} (hr : ApiHandlers.Reachable a) :
    ApiHandlers.MethodsAligned a := by
  induction hr with
  | ofListR H => exact methodsAligned_foldl H emptyHandlers methodsAligned_empty
  | putR h _ ih => exact methodsAligned_put _ h ih

/-! ## Backend frame lemmas -/

theorem handle_snd_eq (b : HttpClientStubBackend σ β) (req : HttpRequest β) :
    ∃ s', (HttpClientStubBackend.handle b req).2 = { b with state := s' } := by
  unfold HttpClientStubBackend.handle
  cases hmatch : ApiHandlers.matchHandler b.apiHandlers req.method req.url with
  | none =>
      refine ⟨b.state, ?_⟩
      simp
  | some handler =>
      refine ⟨(ApiHandler.handle handler req responseBuilder b.state).2, ?_⟩
      simp only []
      cases hr : (ApiHandler.handle handler req responseBuilder b.state).1 with
      | response r =>
          simp [hr]
          split <;> rfl
      | errorResponse e =>
          simp [hr]
          split <;> rfl
      | invalid => simp [hr]

theorem initialState_applyOp (b : HttpClientStubBackend σ β) (op : StubOp σ β) :
    (applyOp b op).initialState = b.initialState := by
  cases op with
  | opHandle req =>
      obtain ⟨s', hs⟩ := handle_snd_eq b req
      show (HttpClientStubBackend.handle b req).2.initialState = b.initialState
      rw [hs]
  | opPutHandlers hs => rfl
  | opResetHandlers => rfl
  | opResetState => rfl

theorem initialState_applyOps (ops : List (StubOp σ β)) :
    ∀ b : HttpClientStubBackend σ β, (applyOps b ops).initialState = b.initialState := by
  induction ops with
  | nil => intro b; rfl
  | cons op ops ih =>
      intro b
      show (applyOps (applyOp b op) ops).initialState = b.initialState
      rw [ih, initialState_applyOp]

theorem initialHandlers_applyPuts (seq : List (List (ApiHandler (HandlerFn σ β)))) :
    ∀ b : HttpClientStubBackend σ β, (applyPuts seq b).initialHandlers = b.initialHandlers := by
  induction seq with
  | nil => intro b; rfl
  | cons hs rest ih =>
      intro b
      show (applyPuts rest (HttpClientStubBackend.putHandlers b hs)).initialHandlers =
        b.initialHandlers
      rw [ih]
      rfl

/-! ## Claim theorems -/

/-- C1: for every outcome returned by an invoked handler during handle, a
response whose status is outside 200..299 , an error response whose status
is inside that range, or a value that is neither variant, makes handle
raise the corresponding fatal error (it is never delivered and never
coerced), while a valid outcome is delivered unchanged on the success
channel (next plus complete) or the error channel respectively. -/
theorem handle_outcome_validation (b : HttpClientStubBackend σ β) (req : HttpRequest β)
    (handler : ApiHandler (HandlerFn σ β)) (resp : StubResponse β) (s' : σ)
    (hm : ApiHandlers.matchHandler b.apiHandlers req.method req.url = some handler)
    (hout : ApiHandler.handle handler req responseBuilder b.state = (resp, s')) :
    (∀ r, resp = StubResponse.response r →
        ((200 ≤ r.status ∧ r.status < 300) →
            HttpClientStubBackend.handle b req =
              (Except.ok (HandleOutcome.success r), { b with state := s' })) ∧
        (¬(200 ≤ r.status ∧ r.status < 300) →
            HttpClientStubBackend.handle b req =
              (Except.error HandleError.notErrorButStatusNotOk, { b with state := s' }))) ∧
    (∀ e, resp = StubResponse.errorResponse e →
        ((200 ≤ e.status ∧ e.status < 300) →
            HttpClientStubBackend.handle b req =
              (Except.error HandleError.errorButStatusOk, { b with state := s' })) ∧
        (¬(200 ≤ e.status ∧ e.status < 300) →
            HttpClientStubBackend.handle b req =
              (Except.ok (HandleOutcome.failure e), { b with state := s' }))) ∧
    (resp = StubResponse.invalid →
        HttpClientStubBackend.handle b req =
          (Except.error HandleError.invalidResponse, { b with state := s' })) := by
  refine ⟨?_, ?_, ?_⟩
  · intro r hr
    subst hr
    constructor
    · intro hok
      simp [HttpClientStubBackend.handle, hm, hout, hok]
    · intro hnot
      simp [HttpClientStubBackend.handle, hm, hout, hnot]
  · intro e he
    subst he
    constructor
    · intro hok
      simp [HttpClientStubBackend.handle, hm, hout, hok]
    · intro hnot
      simp [HttpClientStubBackend.handle, hm, hout, hnot]
  · intro hi
    subst hi
    simp [HttpClientStubBackend.handle, hm, hout]

/-- Witness for C1: on the concrete backend the concrete 200 response is
delivered unchanged on the success channel. -/
theorem handle_outcome_validation_witness :
    HttpClientStubBackend.handle backendOk reqUsers =
      (Except.ok (HandleOutcome.success { body := (), status := 200 }),
        { backendOk with state := () }) := by
  have h := handle_outcome_validation backendOk reqUsers handlerOk
    (StubResponse.response { body := (), status := 200 }) () rfl rfl
  exact (h.1 { body := (), status := 200 } rfl).1 (by decide)

/-- C2: a request whose (method, url) has no registered handler makes handle
raise the no-handler error; no outcome (in particular no failure outcome) is
delivered and the backend, so its current state and registry, is returned
unchanged. -/
theorem handle_noHandlerFound (b : HttpClientStubBackend σ β) (req : HttpRequest β)
    (hnone : ApiHandlers.matchHandler b.apiHandlers req.method req.url = none) :
    HttpClientStubBackend.handle b req = (Except.error HandleError.noHandlerFound, b) := by
  simp [HttpClientStubBackend.handle, hnone]

/-- Witness for C2: the empty backend rejects the concrete request with the
no-handler error and is unchanged. -/
theorem handle_noHandlerFound_witness :
    ApiHandlers.matchHandler backendEmpty.apiHandlers reqUsers.method reqUsers.url = none ∧
    HttpClientStubBackend.handle backendEmpty reqUsers =
      (Except.error HandleError.noHandlerFound, backendEmpty) :=
  ⟨rfl, handle_noHandlerFound backendEmpty reqUsers rfl⟩

/-- C3: building the registry from a handler list with pairwise distinct
(method, url) keys makes lookup return exactly the registered handler for
each key of the list; moreover any successful lookup matched the requested
url by exact string equality (no normalization is applied). -/
theorem ofList_match_mem (H : List (ApiHandler α))
    (hdist : H.Pairwise (fun g h => (g.method, g.url) ≠ (h.method, h.url))) :
    (∀ t ∈ H,
        ApiHandlers.matchHandler (ApiHandlers.ofList H)
          (HttpMethod.toKey t.method) t.url = some t) ∧
    (∀ (ms u : String) (t : ApiHandler α),
        ApiHandlers.matchHandler (ApiHandlers.ofList H) ms u = some t → t.url = u) := by
  constructor
  · intro t ht
    exact matchHandler_foldl_mem t H emptyHandlers hdist ht
  · intro ms u t hmt
    exact matchHandler_url _ ms u t hmt

/-- Witness for C3: on the concrete three-handler list, lookup of GET /users
returns the registered handler. -/
theorem ofList_match_mem_witness :
    ApiHandlers.matchHandler (ApiHandlers.ofList handlersC3)
      (HttpMethod.toKey HttpMethod.GET) "/users" =
      some { method := HttpMethod.GET, url := "/users", handle := 0 } :=
  (ofList_match_mem handlersC3 (by decide)).1
    { method := HttpMethod.GET, url := "/users", handle := 0 } (by decide)

/-- C4: the registry keeps at most one handler per (method, url) key: this
holds after construction from any list and is preserved by put; put with an
already present key replaces at the existing index leaving every other entry
and every other method list untouched, put with a new key appends; and
putting two handlers with the same key leaves exactly one handler for that
key, the most recent one. -/
theorem registry_uniqueness :
    (∀ H : List (ApiHandler α), ApiHandlers.UrlsUnique (ApiHandlers.ofList H)) ∧
    (∀ (a : ApiHandlers α) (h : ApiHandler α),
        ApiHandlers.UrlsUnique a → ApiHandlers.UrlsUnique (ApiHandlers.put a h)) ∧
    (∀ (a : ApiHandlers α) (h : ApiHandler α) (i : Nat),
        findIndex (fun x => x.url == h.url) (ApiHandlers.get a h.method) = some i →
        ApiHandlers.get (ApiHandlers.put a h) h.method =
            (ApiHandlers.get a h.method).set i h ∧
        ∀ m, m ≠ h.method →
          ApiHandlers.get (ApiHandlers.put a h) m = ApiHandlers.get a m) ∧
    (∀ (a : ApiHandlers α) (h : ApiHandler α),
        findIndex (fun x => x.url == h.url) (ApiHandlers.get a h.method) = none →
        ApiHandlers.get (ApiHandlers.put a h) h.method =
          ApiHandlers.get a h.method ++ [h]) ∧
    (∀ (a : ApiHandlers α) (h1 h2 : ApiHandler α),
        ApiHandlers.UrlsUnique a → h1.method = h2.method → h1.url = h2.url →
        (ApiHandlers.get (ApiHandlers.put (ApiHandlers.put a h1) h2) h2.method).filter
            (fun x => x.url == h2.url) = [h2]) := by
  refine ⟨urlsUnique_ofList, urlsUnique_put, ?_, ?_, ?_⟩
  · intro a h i hf
    constructor
    · unfold ApiHandlers.put
      rw [ApiHandlers.get_setList_self]
      unfold putList
      rw [hf]
    · intro m hm
      exact ApiHandlers.get_put_ne a h hm
  · intro a h hf
    unfold ApiHandlers.put
    rw [ApiHandlers.get_setList_self]
    unfold putList
    rw [hf]
  · intro a h1 h2 hu hm hurl
    rw [ApiHandlers.get_put_self]
    rw [← hm]
    rw [ApiHandlers.get_put_self]
    exact filter_putRec_self h2 _ (nodup_urls_putRec h1 _ (hu h1.method))

/-- Witness for C4: putting two concrete handlers with the same key into the
empty registry leaves exactly the most recent one under that key. -/
theorem registry_uniqueness_witness :
    (ApiHandlers.get (ApiHandlers.put (ApiHandlers.put (emptyHandlers : ApiHandlers Nat) hC4a)
        hC4b) hC4b.method).filter (fun x => x.url == hC4b.url) = [hC4b] :=
  registry_uniqueness.2.2.2.2 emptyHandlers hC4a hC4b urlsUnique_empty rfl rfl

/-- C5: after any sequence of putHandlers calls following setup,
resetHandlers restores the matching behavior of the registry to exactly that
of the handler set passed at setup, and resetHandlers is idempotent. -/
theorem resetHandlers_restores (s : σ) (H : List (ApiHandler (HandlerFn σ β)))
    (seq : List (List (ApiHandler (HandlerFn σ β)))) :
    (∀ ms u : String,
        ApiHandlers.matchHandler
            (HttpClientStubBackend.resetHandlers
              (applyPuts seq (HttpClientStubBackend.init s H))).apiHandlers ms u =
          ApiHandlers.matchHandler (HttpClientStubBackend.init s H).apiHandlers ms u) ∧
    (∀ b : HttpClientStubBackend σ β,
        HttpClientStubBackend.resetHandlers (HttpClientStubBackend.resetHandlers b) =
          HttpClientStubBackend.resetHandlers b) := by
  constructor
  · intro ms u
    have h1 : (HttpClientStubBackend.resetHandlers
        (applyPuts seq (HttpClientStubBackend.init s H))).apiHandlers =
        (HttpClientStubBackend.init s H).apiHandlers := by
      show clone (applyPuts seq (HttpClientStubBackend.init s H)).initialHandlers = _
      rw [initialHandlers_applyPuts]
      rfl
    rw [h1]
  · intro b
    rfl

/-- C6: resetState restores the state observed afterwards to the exact value
passed at setup no matter which operations (including handler mutations via
handle) ran before; and state reset and handler reset are independent:
resetState never changes the current registry and resetHandlers never
changes the current state, so state mutated before a handler reset stays
mutated. -/
theorem resetState_restores (s : σ) (H : List (ApiHandler (HandlerFn σ β)))
    (ops : List (StubOp σ β)) :
    (HttpClientStubBackend.resetState (applyOps (HttpClientStubBackend.init s H) ops)).state
        = s ∧
    (∀ b : HttpClientStubBackend σ β,
        (HttpClientStubBackend.resetState b).apiHandlers = b.apiHandlers ∧
        (HttpClientStubBackend.resetState b).initialHandlers = b.initialHandlers ∧
        (HttpClientStubBackend.resetHandlers b).state = b.state ∧
        (HttpClientStubBackend.resetHandlers b).initialState = b.initialState) := by
  constructor
  · show clone (applyOps (HttpClientStubBackend.init s H) ops).initialState = s
    rw [initialState_applyOps]
    rfl
  · intro b
    exact ⟨rfl, rfl, rfl, rfl⟩

/-- C7 counterexample: the ok constructor of the builder does not force the
status into 200..299 ; with status 500 it produces a success-tagged response
whose status is out of range. -/
theorem responseBuilder_ok_out_of_range :
    ¬(200 ≤ (ResponseBuilder.ok (responseBuilder : ResponseBuilder Unit)
          { body := (), status := 500 }).status ∧
      (ResponseBuilder.ok (responseBuilder : ResponseBuilder Unit)
          { body := (), status := 500 }).status < 300) := by
  decide

/-- C7 amended: ok always produces the success-tagged HttpResponse and error
always produces the failure-tagged HttpErrorResponse, each carrying exactly
the body and the status passed in; the builder separates the two tags by
construction but does not restrict the status to the corresponding range. -/
theorem responseBuilder_passthrough :
    (∀ p : OkParams β,
        ResponseBuilder.ok (responseBuilder : ResponseBuilder β) p =
          { body := p.body, status := p.status }) ∧
    (∀ q : ErrorParams,
        ResponseBuilder.error (responseBuilder : ResponseBuilder β) q =
          { error := q.body, status := q.status }) :=
  ⟨fun _ => rfl, fun _ => rfl⟩

/-- C8: putHandlers modifies only the current registry: the initial-handlers
snapshot, the initial-state snapshot and the current state are unchanged,
and a later resetHandlers still restores the handler set captured at setup
time. -/
theorem putHandlers_frame (b : HttpClientStubBackend σ β)
    (hs : List (ApiHandler (HandlerFn σ β))) :
    (HttpClientStubBackend.putHandlers b hs).initialHandlers = b.initialHandlers ∧
    (HttpClientStubBackend.putHandlers b hs).initialState = b.initialState ∧
    (HttpClientStubBackend.putHandlers b hs).state = b.state ∧
    (HttpClientStubBackend.resetHandlers
        (HttpClientStubBackend.putHandlers b hs)).apiHandlers = b.initialHandlers :=
  ⟨rfl, rfl, rfl, rfl⟩

/-- C9 counterexample: the method string toString is outside the closed
seven-method set, yet match on it throws a TypeError — the inherited
Object.prototype member makes the looked-up value defined but not an array,
so the undefined guard does not fire — instead of returning not-found. -/
theorem matchJS_toString_typeError :
    ("toString" : String) ∉
        (["HEAD", "GET", "POST", "PUT", "DELETE", "PATCH", "OPTIONS"] : List String) ∧
    ApiHandlers.matchJS (ApiHandlers.ofList handlersC3) "toString" "/users" =
      MatchResult.typeError ∧
    ApiHandlers.matchJS (ApiHandlers.ofList handlersC3) "toString" "/users" ≠
      MatchResult.notFound :=
  ⟨by decide, by decide, by decide⟩

/-- C9 amended: a method string outside the closed seven-method set that is
also not an inherited Object.prototype member name makes lookup return
not-found rather than raising, on every registry value and hence in every
reachable registry state; a method string that is such a member name
(toString, constructor, proto accessors, ...) instead makes match throw a
TypeError. -/
theorem matchJS_unknown_method (a : ApiHandlers α) (ms u : String)
    (hms : ms ∉ (["HEAD", "GET", "POST", "PUT", "DELETE", "PATCH", "OPTIONS"] : List String)) :
    (ms ∉ protoProps → ApiHandlers.matchJS a ms u = MatchResult.notFound) ∧
    (ms ∈ protoProps → ApiHandlers.matchJS a ms u = MatchResult.typeError) := by
  have hk : keyToMethod ms = none := keyToMethod_eq_none ms hms
  constructor
  · intro hp
    simp [ApiHandlers.matchJS, ApiHandlers.memberLookup, hk, hp]
  · intro hp
    simp [ApiHandlers.matchJS, ApiHandlers.memberLookup, hk, hp]

/-- Witness for C9 amended: the method string TRACE is outside both the
closed set and the prototype member names, and lookup with it on a concrete
registry returns not-found. -/
theorem matchJS_unknown_method_witness :
    ApiHandlers.matchJS (ApiHandlers.ofList handlersC3) "TRACE" "/users" =
      MatchResult.notFound :=
  (matchJS_unknown_method (ApiHandlers.ofList handlersC3) "TRACE" "/users" (by decide)).1
    (by decide)

/-- C10: lookup is sound in every registry state reachable via the
constructor, put and putHandlers: a successful lookup returns a handler
whose url is exactly the requested url and whose method is exactly the
method the requested method string denotes. -/
theorem matchHandler_sound {a : ApiHandlers α} (hr : ApiHandlers.Reachable a)
    (ms u : String) (h : ApiHandler α)
    (hm : ApiHandlers.matchHandler a ms u = some h) :
    h.url = u ∧ keyToMethod ms = some h.method := by
  refine ⟨matchHandler_url a ms u h hm, ?_⟩
  obtain ⟨m, hk, hmem⟩ := matchHandler_mem a ms u h hm
  have halign := methodsAligned_reachable hr m h hmem
  rw [halign]
  exact hk

/-- Witness for C10: a successful concrete lookup on a reachable registry
returns the handler with the requested url and method. -/
theorem matchHandler_sound_witness :
    hC10.url = "/users" ∧ keyToMethod "GET" = some hC10.method :=
  matchHandler_sound (ApiHandlers.Reachable.ofListR [hC10]) "GET" "/users" hC10 (by decide)
